import Mathlib

/-!
Shallow embedding of `src/pyyuv.py` (a Python 2 / numpy raw-YUV file
reader, writer and RGB converter) and verification of its specification.

Modelling conventions:
* numpy 2-D arrays are `List (List ℕ)` (row-major; a row list per picture
  line), `np.empty([0, 0])` is `[]`;
* the open binary stream is a `List ℕ` of samples already decoded at the
  element width (`np.fromfile(handle, dtype, count)` consumes whole
  elements, so a model in samples rather than bytes is faithful);
* `np.uint8` / `np.uint16` dtypes are modelled by the element byte width
  together with explicit `% 2 ^ (8 * elemBytes)` wherever the source's
  unsigned arithmetic can wrap.  In numpy (both the 1.x value-based
  casting of the Python 2 era and NEP-50), `uint8_array - 128` and
  `uint16_array - 128` are performed in the array's dtype because the
  Python scalar 128 fits in it, so the subtraction wraps modulo
  `2 ^ (8 * elemBytes)`;
* float64 arithmetic of the RGB transform is modelled over `ℚ` with the
  exact literals 1.402, 0.344, 0.714, 1.772 (the claims are stated at
  this idealised resolution; clipping and non-integrality survive the
  sub-ulp float rounding);
* file-handle lifecycle (`open`/`close`) is I/O and is not modelled; no
  claim depends on it.
-/

/-- Constant `CSPACE_420 = 420` of pyyuv.py. -/
def CSPACE_420 : ℕ := 420

/-- Constant `CSPACE_422 = 422` of pyyuv.py. -/
def CSPACE_422 : ℕ := 422

/-- Constant `DEPTH_8 = 8` of pyyuv.py. -/
def DEPTH_8 : ℕ := 8

/-- Constant `DEPTH_10 = 10` of pyyuv.py. -/
def DEPTH_10 : ℕ := 10

/-- The `YuvFile` object: the fields stored by `YuvFile.__init__`
(`self.handle` is file state and is not modelled; `self.dtype` is
modelled by its element byte width `elemBytes`: `np.uint8 ↦ 1`,
`np.uint16 ↦ 2`). -/
structure YuvFile where
  name : String
  mode : String
  width : ℕ
  height : ℕ
  colour : ℕ
  depth : ℕ
  h_smpl : ℕ
  v_smpl : ℕ
  elemBytes : ℕ
  round : ℕ
  shift : ℕ
  y_shape : ℕ × ℕ
  y_size : ℕ
  uv_shape : ℕ × ℕ
  uv_size : ℕ
deriving DecidableEq

/-- Constructor `YuvFile.__init__` (pyyuv.py lines 21–47).  It stores its arguments
and computes the derived settings; it performs no validation.  The
`uv_shape` divisions are Python 2 `/` on ints, i.e. floor division,
matching `Nat` division here. -/
def YuvFile.init (name mode : String) (width height colour depth : ℕ) : YuvFile :=
  let h_smpl : ℕ := 2
  let v_smpl : ℕ := if colour = CSPACE_420 then 2 else 1
  let elemBytes : ℕ := if depth = DEPTH_10 then 2 else 1
  let round : ℕ := if depth = DEPTH_10 then 1 else 0
  let shift : ℕ := if depth = DEPTH_10 then 2 else 0
  let y_shape : ℕ × ℕ := (height, width)
  let uv_shape : ℕ × ℕ := (height / v_smpl, width / h_smpl)
  { name := name, mode := mode, width := width, height := height,
    colour := colour, depth := depth, h_smpl := h_smpl, v_smpl := v_smpl,
    elemBytes := elemBytes, round := round, shift := shift,
    y_shape := y_shape, y_size := y_shape.1 * y_shape.2,
    uv_shape := uv_shape, uv_size := uv_shape.1 * uv_shape.2 }

/-- One more than the largest value of the element dtype: `2 ^ (8 * elemBytes)`.
Unsigned numpy arithmetic in that dtype is arithmetic modulo this. -/
def YuvFile.modulus (f : YuvFile) : ℕ := 2 ^ (8 * f.elemBytes)

/-- The per-sample bit-depth normalization of `to_rgb_8b`:
`np.right_shift(sample + self.round, self.shift)`, with the addition
performed in the element dtype (hence the `% modulus`). -/
def YuvFile.normSample (f : YuvFile) (s : ℕ) : ℕ :=
  ((s + f.round) % f.modulus) >>> f.shift

/-- The unsigned numpy subtraction `sample - 2**7` of `to_rgb_8b`:
`(sample - 128) mod 2 ^ (8 * elemBytes)`, written on `ℕ` as
`(sample + (modulus - 128)) % modulus` (equal for `sample < modulus`). -/
def YuvFile.csub128 (f : YuvFile) (c : ℕ) : ℕ :=
  (c + (f.modulus - 128)) % f.modulus

/-- Geometry check of `parse_options` (pyyuv.py line 150):
`opts.width <= 0 or opts.height <= 0 or opts.width % 2 or opts.height % 2`
(a nonzero `% 2` is truthy in Python; Python `%` by 2 agrees with
`Int.emod` for negatives). -/
def optsGeometryInvalid (w h : ℤ) : Bool :=
  decide (w ≤ 0) || decide (h ≤ 0) || (w % 2 != 0) || (h % 2 != 0)

/-- Colour-space check of `parse_options` (pyyuv.py line 153):
`opts.colour not in [CSPACE_420, CSPACE_422]`. -/
def optsColourInvalid (c : ℤ) : Bool := !(c == 420 || c == 422)

/-- Bit-depth check of `parse_options` (pyyuv.py line 156):
`opts.depth not in [DEPTH_8, DEPTH_10]`. -/
def optsDepthInvalid (d : ℤ) : Bool := !(d == 8 || d == 10)

/-- Round-half-up on the bits dropped by a right-shift, following the
spec's words "round-half-up on the dropped bits": add half of the
dropped range (`2 ^ shift / 2`) before shifting.  This is the spec's
claimed rounding, to be compared with `YuvFile.normSample`. -/
def specRoundHalfUp (shift s : ℕ) : ℕ := (s + 2 ^ shift / 2) >>> shift

/-- Claim C6, counterexample: `YuvFile` construction with the odd width 3
does not fail — `__init__` performs no validation and returns a fully
populated object (note `uv_shape = (2/2, 3/2) = (1, 1)` by floor
division). -/
theorem init_width3_succeeds :
    YuvFile.init "in.yuv" "r" 3 2 420 8 =
      { name := "in.yuv", mode := "r", width := 3, height := 2,
        colour := 420, depth := 8, h_smpl := 2, v_smpl := 2,
        elemBytes := 1, round := 0, shift := 0,
        y_shape := (2, 3), y_size := 6, uv_shape := (1, 1), uv_size := 1 } := by
  rfl

/-- Claim C6 (amended): the non-positive-or-odd width/height validation
lives in the CLI option checking (`parse_options`), which runs before a
`YuvFile` is constructed and before any file is opened — it is not part
of `YuvFile` construction.  `optsGeometryInvalid` rejects exactly the
geometries that are not positive-and-even, and in particular rejects
width 3. -/
theorem geometry_validated_by_cli :
    (∀ w h : ℤ, optsGeometryInvalid w h = true ↔ ¬(0 < w ∧ 0 < h ∧ 2 ∣ w ∧ 2 ∣ h)) ∧
      optsGeometryInvalid 3 2 = true := by
  constructor
  · intro w h
    simp only [optsGeometryInvalid, Bool.or_eq_true, decide_eq_true_eq, bne_iff_ne, ne_eq]
    omega
  · decide

/-- Claim C7, counterexample: `YuvFile` construction with chroma mode 444
(not in {420, 422}) and with bit depth 12 (not in {8, 10}) does not fail:
`__init__` performs no validation of either argument. -/
theorem init_invalid_enums_succeed :
    YuvFile.init "f" "r" 4 2 444 8 =
      { name := "f", mode := "r", width := 4, height := 2,
        colour := 444, depth := 8, h_smpl := 2, v_smpl := 1,
        elemBytes := 1, round := 0, shift := 0,
        y_shape := (2, 4), y_size := 8, uv_shape := (2, 2), uv_size := 4 } ∧
    YuvFile.init "f" "r" 4 2 420 12 =
      { name := "f", mode := "r", width := 4, height := 2,
        colour := 420, depth := 12, h_smpl := 2, v_smpl := 2,
        elemBytes := 1, round := 0, shift := 0,
        y_shape := (2, 4), y_size := 8, uv_shape := (1, 2), uv_size := 2 } :=
  ⟨rfl, rfl⟩

/-- Claim C7 (amended): the chroma-mode and bit-depth membership checks
live in the CLI option checking (`parse_options`), not in `YuvFile`
construction: `optsColourInvalid` rejects exactly the values outside
{420, 422} and `optsDepthInvalid` exactly the values outside {8, 10}. -/
theorem enums_validated_by_cli :
    (∀ c : ℤ, optsColourInvalid c = true ↔ (c ≠ 420 ∧ c ≠ 422)) ∧
      (∀ d : ℤ, optsDepthInvalid d = true ↔ (d ≠ 8 ∧ d ≠ 10)) := by
  constructor
  · intro c
    simp [optsColourInvalid, not_or]
  · intro d
    simp [optsDepthInvalid, not_or]

/-- Claim C10: any chroma-mode argument other than 420 yields exactly the
object built for 4:2:2 (only the stored `colour` differs), and any
bit-depth argument other than 10 yields exactly the object built for
8-bit (only the stored `depth` differs): the constructor's two `if`s are
the only places the arguments influence derived settings. -/
theorem init_defaults_to_422_and_8bit (n m : String) (w h c d : ℕ) :
    (c ≠ 420 → YuvFile.init n m w h c d = { YuvFile.init n m w h 422 d with colour := c }) ∧
      (d ≠ 10 → YuvFile.init n m w h c d = { YuvFile.init n m w h c 8 with depth := d }) := by
  constructor
  · intro hc
    simp [YuvFile.init, CSPACE_420, hc]
  · intro hd
    simp [YuvFile.init, DEPTH_10, hd]

/-- Claim C10, witness: instantiated at chroma mode 444 and bit depth 12. -/
theorem init_defaults_to_422_and_8bit_witness :
    YuvFile.init "a" "r" 4 2 444 12 = { YuvFile.init "a" "r" 4 2 422 12 with colour := 444 } ∧
      YuvFile.init "a" "r" 4 2 444 12 = { YuvFile.init "a" "r" 4 2 444 8 with depth := 12 } :=
  ⟨(init_defaults_to_422_and_8bit "a" "r" 4 2 444 12).1 (by decide),
   (init_defaults_to_422_and_8bit "a" "r" 4 2 444 12).2 (by decide)⟩

/-- Claim C5, counterexample: at 10-bit depth the normalization is
`(s + 1) >>> 2`, which is not round-half-up on the two dropped bits: at
sample 2 (dropped bits `10`, i.e. exactly half) round-half-up gives 1
while the code gives 0. -/
theorem normSample_not_round_half_up :
    (YuvFile.init "f" "r" 2 2 420 10).normSample 2 = 0 ∧ specRoundHalfUp 2 2 = 1 := by
  decide

/-- Claim C5 (amended): normalization is `(s + round) >>> shift` in the
element dtype with `shift = 0`, `round = 0` at 8-bit (a no-op on valid
8-bit samples) and `shift = 2`, `round = 1` at 10-bit; the bias 1 is
half-of-dropped-range minus one, so it implements round-half-DOWN on the
two dropped bits: remainder 3 rounds up, remainders 0, 1 and the exact
half 2 round down. -/
theorem normSample_constants_round_half_down (s t : ℕ) (hs : s < 2 ^ 8) (ht : t < 2 ^ 10) :
    (YuvFile.init "f" "r" 2 2 420 8).shift = 0 ∧
    (YuvFile.init "f" "r" 2 2 420 8).round = 0 ∧
    (YuvFile.init "f" "r" 2 2 420 8).normSample s = s ∧
    (YuvFile.init "f" "r" 2 2 420 10).shift = 2 ∧
    (YuvFile.init "f" "r" 2 2 420 10).round = 1 ∧
    (YuvFile.init "f" "r" 2 2 420 10).normSample t = (t + 1) / 4 ∧
    (t % 4 = 2 → (YuvFile.init "f" "r" 2 2 420 10).normSample t = t / 4) ∧
    (t % 4 = 3 → (YuvFile.init "f" "r" 2 2 420 10).normSample t = t / 4 + 1) := by
  have h8 : (YuvFile.init "f" "r" 2 2 420 8).normSample s = s := by
    simp only [YuvFile.normSample, YuvFile.init, YuvFile.modulus, DEPTH_10]
    norm_num [Nat.shiftRight_eq_div_pow]
    omega
  have h10 : (YuvFile.init "f" "r" 2 2 420 10).normSample t = (t + 1) / 4 := by
    simp only [YuvFile.normSample, YuvFile.init, YuvFile.modulus, DEPTH_10]
    norm_num [Nat.shiftRight_eq_div_pow]
    omega
  refine ⟨rfl, rfl, h8, rfl, rfl, h10, fun h2 => ?_, fun h3 => ?_⟩
  · rw [h10]; omega
  · rw [h10]; omega

/-- Claim C5, witness: instantiated at the 8-bit sample 200 and the
10-bit sample 514 (remainder 2). -/
theorem normSample_constants_round_half_down_witness :
    (YuvFile.init "f" "r" 2 2 420 8).shift = 0 ∧
    (YuvFile.init "f" "r" 2 2 420 8).round = 0 ∧
    (YuvFile.init "f" "r" 2 2 420 8).normSample 200 = 200 ∧
    (YuvFile.init "f" "r" 2 2 420 10).shift = 2 ∧
    (YuvFile.init "f" "r" 2 2 420 10).round = 1 ∧
    (YuvFile.init "f" "r" 2 2 420 10).normSample 514 = (514 + 1) / 4 ∧
    (514 % 4 = 2 → (YuvFile.init "f" "r" 2 2 420 10).normSample 514 = 514 / 4) ∧
    (514 % 4 = 3 → (YuvFile.init "f" "r" 2 2 420 10).normSample 514 = 514 / 4 + 1) :=
  normSample_constants_round_half_down 200 514 (by decide) (by decide)

/-- Model of `np.fromfile(handle, dtype, count)` on the remaining stream `s`:
returns up to `count` elements (fewer at end of file) and the rest of
the stream (the advanced handle). -/
def fromfile (s : List ℕ) (count : ℕ) : List ℕ × List ℕ := (s.take count, s.drop count)

/-- Row-major reshaping core: cut `h` rows of `w` elements off `d`. -/
def toRows {α : Type} (w : ℕ) : ℕ → List α → List (List α)
  | 0, _ => []
  | h + 1, d => d.take w :: toRows w h (d.drop w)

/-- Model of `array.reshape(shape)`: it succeeds (with the row-major rows) exactly
when the element count matches the shape's product, otherwise raises
`ValueError`, modelled as `none`. -/
def reshape {α : Type} (shape : ℕ × ℕ) (d : List α) : Option (List (List α)) :=
  if d.length = shape.1 * shape.2 then some (toRows shape.2 shape.1 d) else none

/-- Method `YuvFile.read_frame` (pyyuv.py lines 87–97): read `y_size` samples
and reshape to `y_shape`, then `uv_size` samples twice reshaped to
`uv_shape`; any `ValueError` from a short read's reshape is caught and
the function returns the `np.empty([0, 0])` triple.  (In the source the
exception aborts at the first failing reshape and the later `fromfile`
calls do not run; the returned value is the same sentinel either way,
which this match expresses.) -/
def YuvFile.read_frame (f : YuvFile) (s : List ℕ) :
    List (List ℕ) × List (List ℕ) × List (List ℕ) :=
  let r1 := fromfile s f.y_size
  let r2 := fromfile r1.2 f.uv_size
  let r3 := fromfile r2.2 f.uv_size
  match reshape f.y_shape r1.1, reshape f.uv_shape r2.1, reshape f.uv_shape r3.1 with
  | some y, some u, some v => (y, u, v)
  | _, _, _ => ([], [], [])

/-- Method `YuvFile.write_frame` (pyyuv.py lines 99–103): `tofile` serializes
each plane in row-major order, Y then U then V, no padding or header. -/
def YuvFile.write_frame (f : YuvFile) (y u v : List (List ℕ)) : List ℕ :=
  y.flatten ++ u.flatten ++ v.flatten

lemma toRows_length {α : Type} (w h : ℕ) (d : List α) : (toRows w h d).length = h := by
  induction h generalizing d with
  | zero => rfl
  | succ k ih => simp [toRows, ih]

lemma reshape_eq_some {α : Type} (shape : ℕ × ℕ) (d : List α)
    (hd : d.length = shape.1 * shape.2) :
    reshape shape d = some (toRows shape.2 shape.1 d) := by
  simp [reshape, hd]

lemma reshape_eq_none {α : Type} (shape : ℕ × ℕ) (d : List α)
    (hd : d.length ≠ shape.1 * shape.2) : reshape shape d = none := by
  simp [reshape, hd]

lemma read_frame_of_long (f : YuvFile) (s : List ℕ)
    (hy : f.y_size = f.y_shape.1 * f.y_shape.2)
    (hu : f.uv_size = f.uv_shape.1 * f.uv_shape.2)
    (hs : f.y_size + 2 * f.uv_size ≤ s.length) :
    f.read_frame s =
      (toRows f.y_shape.2 f.y_shape.1 (s.take f.y_size),
       toRows f.uv_shape.2 f.uv_shape.1 ((s.drop f.y_size).take f.uv_size),
       toRows f.uv_shape.2 f.uv_shape.1 (((s.drop f.y_size).drop f.uv_size).take f.uv_size)) := by
  have l1 : (s.take f.y_size).length = f.y_shape.1 * f.y_shape.2 := by
    rw [← hy, List.length_take]; omega
  have l2 : ((s.drop f.y_size).take f.uv_size).length = f.uv_shape.1 * f.uv_shape.2 := by
    rw [← hu, List.length_take, List.length_drop]; omega
  have l3 : (((s.drop f.y_size).drop f.uv_size).take f.uv_size).length
      = f.uv_shape.1 * f.uv_shape.2 := by
    rw [← hu, List.length_take, List.length_drop, List.length_drop]; omega
  simp only [YuvFile.read_frame, fromfile]
  rw [reshape_eq_some _ _ l1, reshape_eq_some _ _ l2, reshape_eq_some _ _ l3]

lemma read_frame_of_short (f : YuvFile) (s : List ℕ)
    (hy : f.y_size = f.y_shape.1 * f.y_shape.2)
    (hu : f.uv_size = f.uv_shape.1 * f.uv_shape.2)
    (hs : s.length < f.y_size + 2 * f.uv_size) :
    f.read_frame s = ([], [], []) := by
  simp only [YuvFile.read_frame, fromfile]
  by_cases h1 : s.length < f.y_size
  · have : (s.take f.y_size).length ≠ f.y_shape.1 * f.y_shape.2 := by
      rw [← hy, List.length_take]; omega
    rw [reshape_eq_none _ _ this]
  · by_cases h2 : s.length - f.y_size < f.uv_size
    · have : ((s.drop f.y_size).take f.uv_size).length ≠ f.uv_shape.1 * f.uv_shape.2 := by
        rw [← hu, List.length_take, List.length_drop]; omega
      rw [reshape_eq_none _ _ this]
      rcases reshape f.y_shape (s.take f.y_size) with _ | y <;> rfl
    · have : (((s.drop f.y_size).drop f.uv_size).take f.uv_size).length
          ≠ f.uv_shape.1 * f.uv_shape.2 := by
        rw [← hu, List.length_take, List.length_drop, List.length_drop]; omega
      rw [reshape_eq_none _ _ this]
      rcases reshape f.y_shape (s.take f.y_size) with _ | y <;>
        rcases reshape f.uv_shape ((s.drop f.y_size).take f.uv_size) with _ | u <;>
          rfl

/-- Claim C2: for a codec built by the constructor (any arguments, with a
positive height), `read_frame` yields something other than the sentinel
exactly when the stream still holds a full frame's worth of samples
(`y_size + 2 * uv_size`, i.e. all three reads obtain their exact
expected count), and on any shorter remainder — a trailing fragment
included — it returns the sentinel rather than raising. -/
theorem read_frame_full_iff (n m : String) (w h c d : ℕ) (s : List ℕ) (hh : 0 < h) :
    ((YuvFile.init n m w h c d).read_frame s ≠ ([], [], []) ↔
        (YuvFile.init n m w h c d).y_size + 2 * (YuvFile.init n m w h c d).uv_size ≤ s.length) ∧
      (s.length < (YuvFile.init n m w h c d).y_size + 2 * (YuvFile.init n m w h c d).uv_size →
        (YuvFile.init n m w h c d).read_frame s = ([], [], [])) := by
  set f := YuvFile.init n m w h c d with hf
  have hy : f.y_size = f.y_shape.1 * f.y_shape.2 := rfl
  have hu : f.uv_size = f.uv_shape.1 * f.uv_shape.2 := rfl
  have hh1 : f.y_shape.1 = h := rfl
  refine ⟨⟨fun hne => ?_, fun hle => ?_⟩, fun hlt => read_frame_of_short f s hy hu hlt⟩
  · by_contra hlt
    push_neg at hlt
    exact hne (read_frame_of_short f s hy hu hlt)
  · rw [read_frame_of_long f s hy hu hle]
    intro heq
    have h0 : toRows f.y_shape.2 f.y_shape.1 (s.take f.y_size) = [] :=
      congrArg (fun t => t.1) heq
    have := toRows_length f.y_shape.2 f.y_shape.1 (s.take f.y_size)
    rw [h0, hh1] at this
    simp only [List.length_nil] at this
    omega

/-- Claim C2, witness: a 2×2 4:2:0 8-bit frame needs 6 samples; on a
3-sample trailing fragment the sentinel comes back. -/
theorem read_frame_full_iff_witness :
    (0 : ℕ) < 2 ∧
      (((YuvFile.init "f" "r" 2 2 420 8).read_frame [1, 2, 3] ≠ ([], [], []) ↔
          (YuvFile.init "f" "r" 2 2 420 8).y_size +
              2 * (YuvFile.init "f" "r" 2 2 420 8).uv_size ≤ [1, 2, 3].length) ∧
        ([1, 2, 3].length < (YuvFile.init "f" "r" 2 2 420 8).y_size +
            2 * (YuvFile.init "f" "r" 2 2 420 8).uv_size →
          (YuvFile.init "f" "r" 2 2 420 8).read_frame [1, 2, 3] = ([], [], []))) :=
  ⟨by decide, read_frame_full_iff "f" "r" 2 2 420 8 [1, 2, 3] (by decide)⟩

/-- Claim C9: when the stream still holds a complete Y plane but runs out
before the two chroma planes complete, `read_frame` discards what it
read and returns the sentinel triple of three empty 0×0 arrays (whose Y
has size zero, which is what the caller tests). -/
theorem read_frame_partial_sentinel (n m : String) (w h c d : ℕ) (s : List ℕ)
    (h1 : (YuvFile.init n m w h c d).y_size ≤ s.length)
    (h2 : s.length < (YuvFile.init n m w h c d).y_size +
        2 * (YuvFile.init n m w h c d).uv_size) :
    (YuvFile.init n m w h c d).read_frame s = ([], [], []) :=
  read_frame_of_short (YuvFile.init n m w h c d) s rfl rfl h2

/-- Claim C9, witness: 2×2 4:2:0 8-bit geometry (Y needs 4 samples, each
chroma plane 1); a 5-sample stream holds all of Y and U but not V. -/
theorem read_frame_partial_sentinel_witness :
    (YuvFile.init "f" "r" 2 2 420 8).y_size ≤ [9, 9, 9, 9, 9].length ∧
      [9, 9, 9, 9, 9].length < (YuvFile.init "f" "r" 2 2 420 8).y_size +
          2 * (YuvFile.init "f" "r" 2 2 420 8).uv_size ∧
      (YuvFile.init "f" "r" 2 2 420 8).read_frame [9, 9, 9, 9, 9] = ([], [], []) :=
  ⟨by decide, by decide,
    read_frame_partial_sentinel "f" "r" 2 2 420 8 [9, 9, 9, 9, 9] (by decide) (by decide)⟩

lemma flatten_length_of_rows {α : Type} (y : List (List α)) (w : ℕ)
    (hr : ∀ r ∈ y, r.length = w) : y.flatten.length = y.length * w := by
  induction y with
  | nil => simp
  | cons r t ih =>
    have hrw : r.length = w := hr r (by simp)
    have ht : ∀ q ∈ t, q.length = w := fun q hq => hr q (by simp [hq])
    simp [ih ht, hrw, Nat.succ_mul]
    omega

lemma toRows_flatten {α : Type} (w : ℕ) (y : List (List α))
    (hr : ∀ r ∈ y, r.length = w) : toRows w y.length y.flatten = y := by
  induction y with
  | nil => rfl
  | cons r t ih =>
    have hrw : r.length = w := hr r (by simp)
    have ht : ∀ q ∈ t, q.length = w := fun q hq => hr q (by simp [hq])
    simp only [List.length_cons, List.flatten_cons, toRows]
    rw [List.take_left' hrw, List.drop_left' hrw, ih ht]

/-- Claim C3: writing a frame whose planes have the configured shapes and
reading the resulting byte stream back with the same geometry and depth
returns exactly the original Y, U, V planes. -/
theorem write_read_roundtrip (n m : String) (w h c d : ℕ) (y u v : List (List ℕ))
    (hy1 : y.length = (YuvFile.init n m w h c d).y_shape.1)
    (hy2 : ∀ r ∈ y, r.length = (YuvFile.init n m w h c d).y_shape.2)
    (hu1 : u.length = (YuvFile.init n m w h c d).uv_shape.1)
    (hu2 : ∀ r ∈ u, r.length = (YuvFile.init n m w h c d).uv_shape.2)
    (hv1 : v.length = (YuvFile.init n m w h c d).uv_shape.1)
    (hv2 : ∀ r ∈ v, r.length = (YuvFile.init n m w h c d).uv_shape.2) :
    (YuvFile.init n m w h c d).read_frame ((YuvFile.init n m w h c d).write_frame y u v)
      = (y, u, v) := by
  set f := YuvFile.init n m w h c d with hf
  have hy : f.y_size = f.y_shape.1 * f.y_shape.2 := rfl
  have hu : f.uv_size = f.uv_shape.1 * f.uv_shape.2 := rfl
  have ly : y.flatten.length = f.y_size := by
    rw [flatten_length_of_rows y _ hy2, hy1, hy]
  have lu : u.flatten.length = f.uv_size := by
    rw [flatten_length_of_rows u _ hu2, hu1, hu]
  have lv : v.flatten.length = f.uv_size := by
    rw [flatten_length_of_rows v _ hv2, hv1, hu]
  simp only [YuvFile.read_frame, YuvFile.write_frame, fromfile, List.append_assoc]
  rw [List.take_left' ly, List.drop_left' ly, List.take_left' lu, List.drop_left' lu,
    ← lv, List.take_length]
  rw [reshape_eq_some _ _ (by rw [← hy]; exact ly),
    reshape_eq_some _ _ (by rw [← hu]; exact lu),
    reshape_eq_some _ _ (by rw [← hu]; exact lv)]
  have ty : toRows f.y_shape.2 f.y_shape.1 y.flatten = y := by
    conv_lhs => rw [← hy1]
    exact toRows_flatten _ y hy2
  have tu : toRows f.uv_shape.2 f.uv_shape.1 u.flatten = u := by
    conv_lhs => rw [← hu1]
    exact toRows_flatten _ u hu2
  have tv : toRows f.uv_shape.2 f.uv_shape.1 v.flatten = v := by
    conv_lhs => rw [← hv1]
    exact toRows_flatten _ v hv2
  rw [ty, tu, tv]

/-- Claim C3, witness: a concrete 2×2 4:2:0 8-bit frame written and read
back bit-identically. -/
theorem write_read_roundtrip_witness :
    [[1, 2], [3, 4]].length = (YuvFile.init "f" "w" 2 2 420 8).y_shape.1 ∧
      (YuvFile.init "f" "w" 2 2 420 8).read_frame
          ((YuvFile.init "f" "w" 2 2 420 8).write_frame [[1, 2], [3, 4]] [[5]] [[6]])
        = ([[1, 2], [3, 4]], [[5]], [[6]]) :=
  ⟨by decide,
    write_read_roundtrip "f" "w" 2 2 420 8 [[1, 2], [3, 4]] [[5]] [[6]]
      (by decide) (by decide) (by decide) (by decide) (by decide) (by decide)⟩

/-- Method `YuvFile.__upsample_chroma` (pyyuv.py lines 57–62):
`np.kron(p, [1, 1])` duplicates every sample horizontally; for 4:2:0
(`colour == CSPACE_420`) `np.kron(q, [[1], [1]])` then duplicates every
row vertically. -/
def YuvFile.upsample_chroma (f : YuvFile) (p : List (List ℕ)) : List (List ℕ) :=
  let q := p.map fun row => row.flatMap fun x => [x, x]
  if f.colour = CSPACE_420 then q.flatMap fun row => [row, row] else q

lemma flatMap_pair_length {α : Type} (l : List α) :
    (l.flatMap fun x => [x, x]).length = 2 * l.length := by
  induction l with
  | nil => rfl
  | cons a t ih =>
    simp only [List.flatMap_cons, List.length_append, List.length_cons, List.length_nil, ih]
    omega

lemma flatMap_pair_getD {α : Type} (d : α) (l : List α) (j : ℕ) (hj : j < 2 * l.length) :
    (l.flatMap fun x => [x, x]).getD j d = l.getD (j / 2) d := by
  induction l generalizing j with
  | nil => simp at hj
  | cons a t ih =>
    rcases j with _ | j
    · rfl
    rcases j with _ | j
    · rfl
    have hj' : j < 2 * t.length := by simp at hj; omega
    have hdiv : (j + 1 + 1) / 2 = j / 2 + 1 := by omega
    simp only [List.flatMap_cons, List.cons_append, List.nil_append, List.getD_cons_succ,
      hdiv, ih j hj']

lemma getD_map_of_lt {α β : Type} (g : α → β) (l : List α) (n : ℕ) (hn : n < l.length)
    (d : α) (e : β) : (l.map g).getD n e = g (l.getD n d) := by
  rw [List.getD_eq_getElem _ _ (by simpa), List.getD_eq_getElem _ _ hn, List.getElem_map]

lemma upsample_chroma_length (f : YuvFile) (p : List (List ℕ))
    (hv : f.v_smpl = if f.colour = CSPACE_420 then 2 else 1) :
    (f.upsample_chroma p).length = f.v_smpl * p.length := by
  simp only [YuvFile.upsample_chroma]
  by_cases hc : f.colour = CSPACE_420
  · rw [if_pos hc, flatMap_pair_length, List.length_map, hv, if_pos hc]
  · rw [if_neg hc, List.length_map, hv, if_neg hc, one_mul]

lemma upsample_chroma_rows (f : YuvFile) (p : List (List ℕ)) (k : ℕ)
    (hr : ∀ r ∈ p, r.length = k) :
    ∀ r ∈ f.upsample_chroma p, r.length = 2 * k := by
  intro r hrm
  rw [YuvFile.upsample_chroma] at hrm
  by_cases hc : f.colour = CSPACE_420
  · simp only [hc, if_pos] at hrm
    obtain ⟨row, hrow, hrr⟩ := List.mem_flatMap.mp hrm
    obtain ⟨r', hr', he⟩ := List.mem_map.mp hrow
    have : r = row := by
      rcases List.mem_cons.mp hrr with h | h
      · exact h
      · simpa using h
    rw [this, ← he, flatMap_pair_length, hr r' hr']
  · simp only [hc, if_neg, if_false] at hrm
    obtain ⟨r', hr', he⟩ := List.mem_map.mp hrm
    rw [← he, flatMap_pair_length, hr r' hr']

lemma upsample_chroma_getD (f : YuvFile) (p : List (List ℕ)) (k i j : ℕ)
    (hv : f.v_smpl = if f.colour = CSPACE_420 then 2 else 1)
    (hr : ∀ r ∈ p, r.length = k)
    (hi : i < f.v_smpl * p.length) (hj : j < 2 * k) :
    ((f.upsample_chroma p).getD i []).getD j 0 = (p.getD (i / f.v_smpl) []).getD (j / 2) 0 := by
  have hrow : ∀ n, n < p.length →
      ((p.map fun row => row.flatMap fun x => [x, x]).getD n []).getD j 0
        = (p.getD n []).getD (j / 2) 0 := by
    intro n hn
    rw [getD_map_of_lt _ p n hn []]
    exact flatMap_pair_getD 0 (p.getD n []) j
      (by rw [hr (p.getD n []) (by rw [List.getD_eq_getElem _ _ hn]; exact List.getElem_mem hn)]
          exact hj)
  rw [YuvFile.upsample_chroma]
  by_cases hc : f.colour = CSPACE_420
  · have hv2 : f.v_smpl = 2 := by rw [hv, if_pos hc]
    simp only [hc, if_pos]
    rw [flatMap_pair_getD [] _ i
      (by rw [List.length_map]; rw [hv2] at hi; exact hi)]
    rw [hv2]
    exact hrow (i / 2) (by rw [hv2] at hi; omega)
  · have hv1 : f.v_smpl = 1 := by rw [hv, if_neg hc]
    simp only [hc, if_neg, if_false]
    rw [hv1, Nat.div_one]
    exact hrow i (by rw [hv1, one_mul] at hi; exact hi)

/-- Claim C4: on a chroma plane of the configured chroma shape (and an
even geometry), `__upsample_chroma` returns a plane of luma shape where
`output[i][j] = input[i / v_smpl][j / 2]` — each input sample is
replicated as a 2×2 block in 4:2:0 (`v_smpl = 2`) and as a 1×2 block in
4:2:2 and every other mode (`v_smpl = 1`). -/
theorem upsample_chroma_block_replication (n m : String) (w h c d : ℕ) (p : List (List ℕ))
    (hw : 2 ∣ w) (hh : 2 ∣ h)
    (hp1 : p.length = (YuvFile.init n m w h c d).uv_shape.1)
    (hp2 : ∀ r ∈ p, r.length = (YuvFile.init n m w h c d).uv_shape.2) :
    ((YuvFile.init n m w h c d).upsample_chroma p).length
        = (YuvFile.init n m w h c d).height ∧
      (∀ r ∈ (YuvFile.init n m w h c d).upsample_chroma p,
        r.length = (YuvFile.init n m w h c d).width) ∧
      ∀ i j : ℕ, i < (YuvFile.init n m w h c d).height →
        j < (YuvFile.init n m w h c d).width →
        (((YuvFile.init n m w h c d).upsample_chroma p).getD i []).getD j 0
          = (p.getD (i / (YuvFile.init n m w h c d).v_smpl) []).getD (j / 2) 0 := by
  set f := YuvFile.init n m w h c d with hf
  have hv : f.v_smpl = if f.colour = CSPACE_420 then 2 else 1 := rfl
  have hfh : f.height = h := rfl
  have hfw : f.width = w := rfl
  have hs1 : f.uv_shape.1 = h / f.v_smpl := rfl
  have hs2 : f.uv_shape.2 = w / 2 := rfl
  have hvh : f.v_smpl * f.uv_shape.1 = h := by
    rw [hs1, hv]
    by_cases hc : f.colour = CSPACE_420
    · rw [if_pos hc]; exact Nat.mul_div_cancel' hh
    · rw [if_neg hc]; simp
  have hww : 2 * f.uv_shape.2 = w := by
    rw [hs2]; exact Nat.mul_div_cancel' hw
  refine ⟨?_, ?_, ?_⟩
  · rw [upsample_chroma_length f p hv, hp1, hvh, hfh]
  · intro r hr
    rw [upsample_chroma_rows f p f.uv_shape.2 hp2 r hr, hww, hfw]
  · intro i j hi hj
    exact upsample_chroma_getD f p f.uv_shape.2 i j hv hp2
      (by rw [hp1, hvh, ← hfh]; exact hi) (by rw [hww, ← hfw]; exact hj)

/-- Claim C4, witness: 2×2 4:2:0 geometry, one chroma sample replicated
into a 2×2 block. -/
theorem upsample_chroma_block_replication_witness :
    (2 : ℕ) ∣ 2 ∧
      ((YuvFile.init "f" "r" 2 2 420 8).upsample_chroma [[7]]).length
          = (YuvFile.init "f" "r" 2 2 420 8).height ∧
      (∀ r ∈ (YuvFile.init "f" "r" 2 2 420 8).upsample_chroma [[7]],
        r.length = (YuvFile.init "f" "r" 2 2 420 8).width) ∧
      ∀ i j : ℕ, i < (YuvFile.init "f" "r" 2 2 420 8).height →
        j < (YuvFile.init "f" "r" 2 2 420 8).width →
        (((YuvFile.init "f" "r" 2 2 420 8).upsample_chroma [[7]]).getD i []).getD j 0
          = ([[7]].getD (i / (YuvFile.init "f" "r" 2 2 420 8).v_smpl) []).getD (j / 2) 0 :=
  ⟨by decide,
    upsample_chroma_block_replication "f" "r" 2 2 420 8 [[7]]
      (by decide) (by decide) (by decide) (by decide)⟩

/-- Model of `np.clip(a, 0, 2**8 - 1)` per sample: `min (max a 0) 255`. -/
def clipQ (x : ℚ) : ℚ := min (max x 0) 255

/-- Elementwise combination of three equally long lists (numpy
elementwise arithmetic on same-shape operands). -/
def zipWith3 {α β γ δ : Type} (g : α → β → γ → δ) : List α → List β → List γ → List δ
  | a :: as, b :: bs, c :: cs => g a b c :: zipWith3 g as bs cs
  | _, _, _ => []

/-- Elementwise combination of two 2-D arrays of the same shape. -/
def map2Q (g : ℕ → ℕ → ℚ) (a b : List (List ℕ)) : List (List ℚ) :=
  List.zipWith (List.zipWith g) a b

/-- Elementwise combination of three 2-D arrays of the same shape. -/
def map3Q (g : ℕ → ℕ → ℕ → ℚ) (a b c : List (List ℕ)) : List (List ℚ) :=
  zipWith3 (zipWith3 g) a b c

/-- Method `YuvFile.to_rgb_8b` (pyyuv.py lines 64–74): upsample U and V to luma
resolution, normalize all three planes with `normSample`, then apply the
float transform with the unsigned `- 2**7` (`csub128`) and `np.clip`:
`r = clip(y8 + 1.402 * (cr8 - 128), 0, 255)` and so on.  The returned
arrays are float arrays (`np.clip` of a float expression); no cast to
`np.uint8` happens here. -/
def YuvFile.to_rgb_8b (f : YuvFile) (y u v : List (List ℕ)) :
    List (List ℚ) × List (List ℚ) × List (List ℚ) :=
  let cb := f.upsample_chroma u
  let cr := f.upsample_chroma v
  let y8 := y.map (List.map f.normSample)
  let cb8 := cb.map (List.map f.normSample)
  let cr8 := cr.map (List.map f.normSample)
  let r := map2Q (fun a c => clipQ ((a : ℚ) + 1402 / 1000 * (f.csub128 c : ℚ))) y8 cr8
  let g := map3Q (fun a b c => clipQ ((a : ℚ) - 344 / 1000 * (f.csub128 b : ℚ)
      - 714 / 1000 * (f.csub128 c : ℚ))) y8 cb8 cr8
  let b := map2Q (fun a b => clipQ ((a : ℚ) + 1772 / 1000 * (f.csub128 b : ℚ))) y8 cb8
  (r, g, b)

/-- Claim C1, failing input (code bug): on the 8-bit frame Y all 16,
U = [[128]], V = [[100]], the unsigned numpy subtraction makes
`cr8 - 128` wrap to `(100 - 128) mod 256 = 228`, so the code outputs
R = clip(16 + 1.402·228) = 255 on every pixel, while the claimed BT.601
formula R = clip(Y8 + 1.402·(Cr8 − 128)) gives clip(16 − 39.256) = 0. -/
theorem to_rgb_8b_wraps_negative_chroma :
    ((YuvFile.init "f" "r" 2 2 420 8).to_rgb_8b [[16, 16], [16, 16]] [[128]] [[100]]).1
        = [[255, 255], [255, 255]] ∧
      clipQ ((16 : ℚ) + 1402 / 1000 * ((100 : ℚ) - 128)) = 0 := by
  have hup : (YuvFile.init "f" "r" 2 2 420 8).upsample_chroma [[100]]
      = [[100, 100], [100, 100]] := by decide
  have hcs : (YuvFile.init "f" "r" 2 2 420 8).csub128 100 = 228 := by decide
  constructor
  · simp only [YuvFile.to_rgb_8b, map2Q, hup]
    have hns : (YuvFile.init "f" "r" 2 2 420 8).normSample 16 = 16 := by decide
    have hns2 : (YuvFile.init "f" "r" 2 2 420 8).normSample 100 = 100 := by decide
    simp only [List.map_cons, List.map_nil, hns, hns2, List.zipWith_cons_cons,
      List.zipWith_nil_right, List.zipWith_nil_left, hcs]
    norm_num [clipQ, max_def, min_def]
  · rw [clipQ]
    norm_num [max_def, min_def]

/-- Claim C8, counterexample: the arrays returned by `to_rgb_8b` are not
unsigned 8-bit integer arrays — they are float arrays, and their values
are generally non-integral: with Y = 16 and V = [[129]] at 8-bit the
first R value is 16 + 1.402·1 = 17.402, which equals no natural number
(the cast to `np.uint8` happens only later, in `plot_rgb_8b`). -/
theorem to_rgb_8b_result_not_uint8 :
    ¬ ∃ k : ℕ,
      ((((YuvFile.init "f" "r" 2 2 420 8).to_rgb_8b
          [[16, 16], [16, 16]] [[128]] [[129]]).1.getD 0 []).getD 0 0) = (k : ℚ) := by
  have hup : (YuvFile.init "f" "r" 2 2 420 8).upsample_chroma [[129]]
      = [[129, 129], [129, 129]] := by decide
  have hcs : (YuvFile.init "f" "r" 2 2 420 8).csub128 129 = 1 := by decide
  have hns : (YuvFile.init "f" "r" 2 2 420 8).normSample 16 = 16 := by decide
  have hns2 : (YuvFile.init "f" "r" 2 2 420 8).normSample 129 = 129 := by decide
  have hval : ((((YuvFile.init "f" "r" 2 2 420 8).to_rgb_8b
      [[16, 16], [16, 16]] [[128]] [[129]]).1.getD 0 []).getD 0 0) = 8701 / 500 := by
    simp only [YuvFile.to_rgb_8b, map2Q, hup, List.map_cons, List.map_nil, hns, hns2,
      List.zipWith_cons_cons, List.zipWith_nil_right, List.zipWith_nil_left, hcs,
      List.getD_cons_zero]
    norm_num [clipQ, max_def, min_def]
  intro hex
  obtain ⟨k, hk⟩ := hex
  rw [hval] at hk
  have h2 : (k : ℚ) * 500 = 8701 := by rw [← hk]; norm_num
  have h3 : ((k * 500 : ℕ) : ℚ) = ((8701 : ℕ) : ℚ) := by push_cast; linarith
  have h4 : k * 500 = 8701 := Nat.cast_injective h3
  omega

lemma of_mem_zipWith {α β γ : Type} {g : α → β → γ} {a : List α} {b : List β} {x : γ}
    (hx : x ∈ List.zipWith g a b) : ∃ p ∈ a, ∃ q ∈ b, x = g p q := by
  induction a generalizing b with
  | nil => simp at hx
  | cons p ps ih =>
    cases b with
    | nil => simp at hx
    | cons q qs =>
      rcases List.mem_cons.mp hx with h | h
      · exact ⟨p, by simp, q, by simp, h⟩
      · obtain ⟨p', hp', q', hq', he⟩ := ih h
        exact ⟨p', by simp [hp'], q', by simp [hq'], he⟩

lemma length_zipWith3 {α β γ δ : Type} (g : α → β → γ → δ) (a : List α) (b : List β)
    (c : List γ) : (zipWith3 g a b c).length = min a.length (min b.length c.length) := by
  induction a generalizing b c with
  | nil => simp [zipWith3]
  | cons p ps ih =>
    cases b with
    | nil => simp [zipWith3]
    | cons q qs =>
      cases c with
      | nil => simp [zipWith3]
      | cons r rs =>
        simp only [zipWith3, List.length_cons, ih]
        omega

lemma of_mem_zipWith3 {α β γ δ : Type} {g : α → β → γ → δ} {a : List α} {b : List β}
    {c : List γ} {x : δ} (hx : x ∈ zipWith3 g a b c) :
    ∃ p ∈ a, ∃ q ∈ b, ∃ r ∈ c, x = g p q r := by
  induction a generalizing b c with
  | nil => simp [zipWith3] at hx
  | cons p ps ih =>
    cases b with
    | nil => simp [zipWith3] at hx
    | cons q qs =>
      cases c with
      | nil => simp [zipWith3] at hx
      | cons r rs =>
        rcases List.mem_cons.mp hx with h | h
        · exact ⟨p, by simp, q, by simp, r, by simp, h⟩
        · obtain ⟨p', hp', q', hq', r', hr', he⟩ := ih h
          exact ⟨p', by simp [hp'], q', by simp [hq'], r', by simp [hr'], he⟩

lemma clipQ_nonneg (x : ℚ) : 0 ≤ clipQ x :=
  le_min (le_max_right x 0) (by norm_num)

lemma clipQ_le_255 (x : ℚ) : clipQ x ≤ 255 := min_le_right _ _

lemma map2Q_rows (g : ℕ → ℕ → ℚ) (A B : List (List ℕ)) (k : ℕ)
    (hA : ∀ r ∈ A, r.length = k) (hB : ∀ r ∈ B, r.length = k) :
    ∀ r ∈ map2Q g A B, r.length = k := by
  intro r hr
  obtain ⟨p, hp, q, hq, he⟩ := of_mem_zipWith hr
  rw [he, List.length_zipWith, hA p hp, hB q hq, min_self]

lemma map3Q_rows (g : ℕ → ℕ → ℕ → ℚ) (A B C : List (List ℕ)) (k : ℕ)
    (hA : ∀ r ∈ A, r.length = k) (hB : ∀ r ∈ B, r.length = k)
    (hC : ∀ r ∈ C, r.length = k) : ∀ r ∈ map3Q g A B C, r.length = k := by
  intro r hr
  obtain ⟨p, hp, q, hq, s, hs, he⟩ := of_mem_zipWith3 hr
  rw [he, length_zipWith3, hA p hp, hB q hq, hC s hs, min_self, min_self]

lemma map2Q_clip_range (g : ℕ → ℕ → ℚ) (A B : List (List ℕ))
    (hg : ∀ a b, 0 ≤ g a b ∧ g a b ≤ 255) :
    ∀ r ∈ map2Q g A B, ∀ x ∈ r, 0 ≤ x ∧ x ≤ 255 := by
  intro r hr x hx
  obtain ⟨p, hp, q, hq, he⟩ := of_mem_zipWith hr
  rw [he] at hx
  obtain ⟨a, ha, b, hb, hxe⟩ := of_mem_zipWith hx
  rw [hxe]
  exact hg a b

lemma map3Q_clip_range (g : ℕ → ℕ → ℕ → ℚ) (A B C : List (List ℕ))
    (hg : ∀ a b c, 0 ≤ g a b c ∧ g a b c ≤ 255) :
    ∀ r ∈ map3Q g A B C, ∀ x ∈ r, 0 ≤ x ∧ x ≤ 255 := by
  intro r hr x hx
  obtain ⟨p, hp, q, hq, s, hs, he⟩ := of_mem_zipWith3 hr
  rw [he] at hx
  obtain ⟨a, ha, b, hb, c, hc, hxe⟩ := of_mem_zipWith3 hx
  rw [hxe]
  exact hg a b c

/-- Claim C8 (amended): for a valid geometry and correctly shaped input
planes, each of the three arrays returned by `to_rgb_8b` has the same
shape as the luma plane and every value is clipped into [0, 255]; the
arrays are float arrays (values generally non-integral — see the
counterexample), and the unsigned 8-bit cast is applied only later by
`plot_rgb_8b`. -/
theorem to_rgb_8b_shape_and_range (n m : String) (w h c d : ℕ) (y u v : List (List ℕ))
    (hw : 2 ∣ w) (hh : 2 ∣ h)
    (hy1 : y.length = h) (hy2 : ∀ r ∈ y, r.length = w)
    (hu1 : u.length = (YuvFile.init n m w h c d).uv_shape.1)
    (hu2 : ∀ r ∈ u, r.length = (YuvFile.init n m w h c d).uv_shape.2)
    (hv1 : v.length = (YuvFile.init n m w h c d).uv_shape.1)
    (hv2 : ∀ r ∈ v, r.length = (YuvFile.init n m w h c d).uv_shape.2) :
    ∀ ch ∈ [((YuvFile.init n m w h c d).to_rgb_8b y u v).1,
        ((YuvFile.init n m w h c d).to_rgb_8b y u v).2.1,
        ((YuvFile.init n m w h c d).to_rgb_8b y u v).2.2],
      ch.length = h ∧ (∀ row ∈ ch, row.length = w) ∧
        ∀ row ∈ ch, ∀ x ∈ row, 0 ≤ x ∧ x ≤ 255 := by
  set f := YuvFile.init n m w h c d with hf
  have hv' : f.v_smpl = if f.colour = CSPACE_420 then 2 else 1 := rfl
  have hvh : f.v_smpl * f.uv_shape.1 = h := by
    show f.v_smpl * (h / f.v_smpl) = h
    rw [hv']
    by_cases hc : f.colour = CSPACE_420
    · rw [if_pos hc]; exact Nat.mul_div_cancel' hh
    · rw [if_neg hc]; simp
  have hww : 2 * f.uv_shape.2 = w := by
    show 2 * (w / 2) = w
    exact Nat.mul_div_cancel' hw
  have hcbl : (f.upsample_chroma u).length = h := by
    rw [upsample_chroma_length f u hv', hu1, hvh]
  have hcbr : ∀ r ∈ f.upsample_chroma u, r.length = w := fun r hr => by
    rw [upsample_chroma_rows f u _ hu2 r hr, hww]
  have hcrl : (f.upsample_chroma v).length = h := by
    rw [upsample_chroma_length f v hv', hv1, hvh]
  have hcrr : ∀ r ∈ f.upsample_chroma v, r.length = w := fun r hr => by
    rw [upsample_chroma_rows f v _ hv2 r hr, hww]
  have hy8l : (y.map (List.map f.normSample)).length = h := by
    rw [List.length_map, hy1]
  have hy8r : ∀ r ∈ y.map (List.map f.normSample), r.length = w := by
    intro r hr
    obtain ⟨r', h1, h2⟩ := List.mem_map.mp hr
    rw [← h2, List.length_map, hy2 r' h1]
  have hcb8l : ((f.upsample_chroma u).map (List.map f.normSample)).length = h := by
    rw [List.length_map, hcbl]
  have hcb8r : ∀ r ∈ (f.upsample_chroma u).map (List.map f.normSample), r.length = w := by
    intro r hr
    obtain ⟨r', h1, h2⟩ := List.mem_map.mp hr
    rw [← h2, List.length_map, hcbr r' h1]
  have hcr8l : ((f.upsample_chroma v).map (List.map f.normSample)).length = h := by
    rw [List.length_map, hcrl]
  have hcr8r : ∀ r ∈ (f.upsample_chroma v).map (List.map f.normSample), r.length = w := by
    intro r hr
    obtain ⟨r', h1, h2⟩ := List.mem_map.mp hr
    rw [← h2, List.length_map, hcrr r' h1]
  intro ch hch
  simp only [YuvFile.to_rgb_8b, List.mem_cons, List.not_mem_nil, or_false] at hch
  rcases hch with h1 | h1 | h1 <;> subst h1 <;> refine ⟨?_, ?_, ?_⟩
  · rw [map2Q, List.length_zipWith, hy8l, hcr8l, min_self]
  · exact map2Q_rows _ _ _ w hy8r hcr8r
  · exact map2Q_clip_range _ _ _ (fun a b => ⟨clipQ_nonneg _, clipQ_le_255 _⟩)
  · rw [map3Q, length_zipWith3, hy8l, hcb8l, hcr8l, min_self, min_self]
  · exact map3Q_rows _ _ _ _ w hy8r hcb8r hcr8r
  · exact map3Q_clip_range _ _ _ _ (fun a b c => ⟨clipQ_nonneg _, clipQ_le_255 _⟩)
  · rw [map2Q, List.length_zipWith, hy8l, hcb8l, min_self]
  · exact map2Q_rows _ _ _ w hy8r hcb8r
  · exact map2Q_clip_range _ _ _ (fun a b => ⟨clipQ_nonneg _, clipQ_le_255 _⟩)

/-- Claim C8, witness: instantiated on a concrete 2×2 4:2:0 8-bit frame. -/
theorem to_rgb_8b_shape_and_range_witness :
    (2 : ℕ) ∣ 2 ∧
      ∀ ch ∈ [((YuvFile.init "f" "r" 2 2 420 8).to_rgb_8b
            [[16, 16], [16, 16]] [[128]] [[100]]).1,
          ((YuvFile.init "f" "r" 2 2 420 8).to_rgb_8b
            [[16, 16], [16, 16]] [[128]] [[100]]).2.1,
          ((YuvFile.init "f" "r" 2 2 420 8).to_rgb_8b
            [[16, 16], [16, 16]] [[128]] [[100]]).2.2],
        ch.length = 2 ∧ (∀ row ∈ ch, row.length = 2) ∧
          ∀ row ∈ ch, ∀ x ∈ row, 0 ≤ x ∧ x ≤ 255 :=
  ⟨by decide,
    to_rgb_8b_shape_and_range "f" "r" 2 2 420 8 [[16, 16], [16, 16]] [[128]] [[100]]
      (by decide) (by decide) (by decide) (by decide) (by decide) (by decide)
      (by decide) (by decide)⟩
